import Mathlib

/-!
Verification of the deepwiki-export repository's core logic.

This file shallowly embeds the pure logic of the Python sources
`src/deepwiki_export/utils.py`, `src/deepwiki_export/save_markdown_from_url.py`
and `src/deepwiki_export/chunk_processor.py` into Lean, and proves the
specification claims about them.

Strings are modelled as Lean `String`/`List Char`; Python string indexing,
slicing and `len` operate on code points, exactly as `List Char` operations do.
Effectful operations (HTTP fetch, file writes) are modelled by explicit
oracles, and the observable effects (which URLs are fetched, which files are
written with which contents) are returned as data.
-/

namespace DeepwikiExport

/-- Equality of `Except` values is decidable (needed to evaluate the
fallible functions on concrete inputs). -/
instance {ε α : Type} [DecidableEq ε] [DecidableEq α] : DecidableEq (Except ε α) := fun x y =>
  match x, y with
  | .error e₁, .error e₂ =>
    if h : e₁ = e₂ then .isTrue (congrArg Except.error h)
    else .isFalse (fun hc => h (Except.error.inj hc))
  | .ok a₁, .ok a₂ =>
    if h : a₁ = a₂ then .isTrue (congrArg Except.ok h)
    else .isFalse (fun hc => h (Except.ok.inj hc))
  | .error _, .ok _ => .isFalse (fun hc => Except.noConfusion hc)
  | .ok _, .error _ => .isFalse (fun hc => Except.noConfusion hc)

/-! ## `utils.sanitize_filename_component`

Python:
```
def sanitize_filename_component(name: str) -> str:
    if not name:
        return "untitled"
    name = re.sub(r'[^a-zA-Z0-9._-]+', '_', name)
    name = name.strip('._')
    name = re.sub(r'_+', '_', name)
    if not name or all(c in '._' for c in name):
        return "untitled"
    return name
```
-/

/-- The character class `[a-zA-Z0-9._-]` of the sanitizer's regex. -/
def isSafeFilenameChar (c : Char) : Bool :=
  ('a' ≤ c && c ≤ 'z') || ('A' ≤ c && c ≤ 'Z') || ('0' ≤ c && c ≤ '9') ||
    c = '.' || c = '_' || c = '-'

/-- Membership in the two-character string `'._'` used by `str.strip` and the
final `all` check. -/
def isDotOrUnderscore (c : Char) : Bool := c = '.' || c = '_'

/-- `re.sub(r'[^a-zA-Z0-9._-]+', '_', ·)`: each maximal run of characters
outside the safe class becomes a single underscore.  The boolean argument
records whether the previous character was part of such a run. -/
def replaceUnsafeRuns : Bool → List Char → List Char
  | _, [] => []
  | inRun, c :: rest =>
    if isSafeFilenameChar c then c :: replaceUnsafeRuns false rest
    else if inRun then replaceUnsafeRuns true rest
    else '_' :: replaceUnsafeRuns true rest

/-- `str.strip('._')`: remove leading and trailing `'.'`/`'_'` characters. -/
def stripDotUnderscore (l : List Char) : List Char :=
  ((l.dropWhile isDotOrUnderscore).reverse.dropWhile isDotOrUnderscore).reverse

/-- `re.sub(r'_+', '_', ·)`: collapse each run of underscores to one.  The
boolean argument records whether the previous character was an underscore. -/
def collapseUnderscores : Bool → List Char → List Char
  | _, [] => []
  | prevU, c :: rest =>
    if c = '_' then
      if prevU then collapseUnderscores true rest
      else '_' :: collapseUnderscores true rest
    else c :: collapseUnderscores false rest

/-- `utils.sanitize_filename_component`. -/
def sanitize_filename_component (name : String) : String :=
  if name = "" then "untitled"
  else
    let replaced := replaceUnsafeRuns false name.data
    let stripped := stripDotUnderscore replaced
    let collapsed := collapseUnderscores false stripped
    if collapsed = [] ∨ collapsed.all isDotOrUnderscore then "untitled"
    else String.mk collapsed

/-! ## Model of `urllib.parse.urlparse`

`utils.derive_filename_from_url` calls the Python standard library's
`urllib.parse.urlparse`.  The standard library is external to this repository,
so the splitting behaviour documented for CPython's `urlsplit`/`urlparse` is
modelled here: strip leading C0-control/space characters, remove tab/CR/LF,
split off `scheme:` (letters, digits, `+`/`-`/`.`, starting with a letter),
take the network location after `//` up to the next `/`, `?` or `#`, split the
fragment at the first `#`, the query at the first `?`, and (for schemes that
use parameters) the params at a `;` in the last path segment. -/

/-- Characters CPython's `urlsplit` strips from the front of the URL
(WHATWG C0 control characters and space). -/
def isC0ControlOrSpace (c : Char) : Bool := c.toNat ≤ 0x20

/-- The bytes CPython's `urlsplit` removes everywhere: tab, CR, LF. -/
def isUnsafeUrlByte (c : Char) : Bool := c = '\t' || c = '\r' || c = '\n'

/-- The characters allowed in a URL scheme (`scheme_chars`). -/
def isSchemeChar (c : Char) : Bool :=
  c.isAlpha || c.isDigit || c = '+' || c = '-' || c = '.'

/-- Split `scheme:` off the front, when the part before the first `:` is a
non-empty run of scheme characters starting with an ASCII letter.  Returns
the (lower-cased) scheme and the remainder. -/
def splitScheme (l : List Char) : List Char × List Char :=
  match l.takeWhile (fun c => !(c = ':')) with
  | [] => ([], l)
  | c :: cs =>
    if (c :: cs).length < l.length && c.isAlpha && (c :: cs).all isSchemeChar then
      ((c :: cs).map Char.toLower, l.drop ((c :: cs).length + 1))
    else ([], l)

/-- `_splitnetloc`: after a leading `//`, the netloc extends to the next
`/`, `?` or `#` (which is kept in the remainder). -/
def splitNetloc (l : List Char) : List Char × List Char :=
  match l with
  | '/' :: '/' :: rest =>
    (rest.takeWhile (fun c => !(c = '/' || c = '?' || c = '#')),
     rest.dropWhile (fun c => !(c = '/' || c = '?' || c = '#')))
  | _ => ([], l)

/-- Split at the first occurrence of `sep`, dropping the separator; when
`sep` is absent the second component is empty (as in `str.split(sep, 1)`). -/
def splitOnFirst (sep : Char) (l : List Char) : List Char × List Char :=
  if l.contains sep then
    (l.takeWhile (fun c => !(c = sep)), (l.dropWhile (fun c => !(c = sep))).tail)
  else (l, [])

/-- CPython's `uses_params` list: the schemes whose paths may carry `;params`. -/
def uses_params : List (List Char) :=
  ["".data, "ftp".data, "hdl".data, "prospero".data, "http".data, "imap".data,
   "https".data, "shttp".data, "rtsp".data, "rtspu".data, "sip".data,
   "sips".data, "mms".data, "sftp".data, "tel".data]

/-- `_splitparams`: split `;params` off the part of the path after the last
slash (or off the whole path when it has no slash). -/
def splitParams (l : List Char) : List Char × List Char :=
  if l.contains '/' then
    let pre := (l.reverse.dropWhile (fun c => !(c = '/'))).reverse
    let post := (l.reverse.takeWhile (fun c => !(c = '/'))).reverse
    if post.contains ';' then
      (pre ++ post.takeWhile (fun c => !(c = ';')),
       (post.dropWhile (fun c => !(c = ';'))).tail)
    else (l, [])
  else if l.contains ';' then
    (l.takeWhile (fun c => !(c = ';')), (l.dropWhile (fun c => !(c = ';'))).tail)
  else (l, [])

/-- The result of `urllib.parse.urlparse`, with the components the code
reads (`path` and `netloc`) plus the rest. -/
structure UrlParseResult where
  scheme : List Char
  netloc : List Char
  path : List Char
  params : List Char
  query : List Char
  fragment : List Char
deriving Repr, DecidableEq

/-- The `ValueError("Invalid IPv6 URL")` condition of CPython's `urlsplit`:
a `'['` without a `']'` — or a `']'` without a `'['` — in the
network-location component. -/
def netlocInvalid (netloc : List Char) : Bool :=
  (netloc.contains '[' && !netloc.contains ']') ||
    (netloc.contains ']' && !netloc.contains '[')

/-- Model of `urllib.parse.urlparse` (see the section comment above).
The model is partial, as the stdlib function is: an unbalanced square
bracket in the netloc raises `ValueError("Invalid IPv6 URL")`, modelled as
`Except.error`, and the repository's `derive_filename_from_url` calls
`urlparse` unguarded, so that exception propagates out of it.

CPython has two further netloc error paths that are not modelled
character-by-character: `_check_bracketed_host` (validation of a
`[...]`-bracketed host, CPython ≥ 3.12) can only fire when the netloc
contains a bracket, and `_checknetloc` (NFKC-normalization check) returns
immediately for an all-ASCII netloc.  Theorems about successful parses
therefore additionally assume a bracket-free, all-ASCII netloc
(`isPlainAsciiNetlocChar`), on which domain `Except.ok` is faithful. -/
def urlparse (url : String) : Except String UrlParseResult :=
  let l0 := (url.data.dropWhile isC0ControlOrSpace).filter (fun c => !isUnsafeUrlByte c)
  let s := splitScheme l0
  let n := splitNetloc s.2
  if netlocInvalid n.1 then .error "Invalid IPv6 URL"
  else
    let f := splitOnFirst '#' n.2
    let q := splitOnFirst '?' f.1
    let p :=
      if uses_params.contains s.1 && q.1.contains ';' then splitParams q.1
      else (q.1, [])
    .ok { scheme := s.1, netloc := n.1, path := p.1, params := p.2,
          query := q.2, fragment := f.2 }

/-- A netloc character that is neither a square bracket nor non-ASCII: on a
netloc of such characters none of CPython's netloc validations
(`Invalid IPv6 URL`, `_check_bracketed_host`, `_checknetloc`) can raise. -/
def isPlainAsciiNetlocChar (c : Char) : Bool :=
  !(c = '[' || c = ']') && decide (c.toNat < 128)

/-! ## Model of `pathlib.PurePosixPath`

`derive_filename_from_url` uses `Path(...).stem` and `Path(...).parts`.
`pathlib` parses a POSIX path by splitting on `/`, dropping empty and `"."`
components, and recording a root (`"/"`, or `"//"` for a path that begins
with exactly two slashes). -/

/-- Split a character list on `/` (like `str.split('/')`). -/
def splitOnSlash : List Char → List (List Char)
  | [] => [[]]
  | c :: rest =>
    if c = '/' then [] :: splitOnSlash rest
    else
      match splitOnSlash rest with
      | [] => [[c]]
      | g :: gs => (c :: g) :: gs

/-- The non-root components of a `PurePosixPath`: split on `/`, drop empty
and `"."` entries. -/
def posixComponents (p : List Char) : List (List Char) :=
  (splitOnSlash p).filter (fun s => !(s = [] || s = ['.']))

/-- The root entry of `PurePosixPath(p).parts`: `"//"` for a path beginning
with exactly two slashes, `"/"` for any other absolute path, nothing
otherwise. -/
def posixRoot (p : List Char) : List (List Char) :=
  match p with
  | '/' :: '/' :: '/' :: _ => [['/']]
  | '/' :: '/' :: _ => [['/', '/']]
  | '/' :: _ => [['/']]
  | _ => []

/-- `PurePosixPath(p).name`: the last component, or empty. -/
def posixName (p : List Char) : List Char :=
  ((posixComponents p).getLast?).getD []

/-- `PurePosixPath` `stem` from a `name`: drop the suffix `name[i:]` where
`i` is the position of the last `'.'`, provided `0 < i < len(name) - 1`. -/
def stemOfName (name : List Char) : List Char :=
  if name.contains '.' then
    let k := (name.reverse.takeWhile (fun c => !(c = '.'))).length
    let i := name.length - 1 - k
    if 0 < i ∧ i < name.length - 1 then name.take i else name
  else name

/-- `PurePosixPath(p).stem`. -/
def posixStem (p : List Char) : List Char := stemOfName (posixName p)

/-- `[seg for seg in path_obj.parts if seg and seg != '/']`:
the parts (root included) with empty strings and `"/"` filtered out. -/
def pathSegmentsFiltered (p : List Char) : List (List Char) :=
  (posixRoot p ++ posixComponents p).filter (fun s => !(s = [] || s = ['/']))

/-! ## `utils.derive_filename_from_url` -/

/-- The `name_base` computed by `utils.derive_filename_from_url` from the
parse result (everything between the `urlparse` call and the
`sanitize_filename_component` call; it does not depend on the extension):
take the path's stem (minus a single leading `'.'`); if empty or `"/"`,
fall back to the last non-empty path segment (using its stem when it has
one), then to the netloc, then to `"untitled_url"`. -/
def derive_name_base (parsed : UrlParseResult) : List Char :=
  let stem0 := posixStem parsed.path
  let nb0 : List Char :=
    match stem0 with
    | '.' :: rest => rest
    | l => l
  if nb0 = [] ∨ nb0 = ['/'] then
    match (pathSegmentsFiltered parsed.path).getLast? with
    | some seg =>
      let segStem := stemOfName (posixName seg)
      match segStem with
      | [] => seg
      | '.' :: rest => rest
      | s => s
    | none =>
      if parsed.netloc = [] then "untitled_url".data else parsed.netloc
  else nb0

/-- `utils.derive_filename_from_url`: parse the URL (an exception from
`urlparse` propagates, since the call is unguarded), compute the
`name_base`, sanitize it, truncate the sanitized base to 50 characters
(`sanitized_name_base[:max_len_base]`), and append the extension verbatim
(`f"{sanitized_name_base[:max_len_base]}{extension}"`). -/
def derive_filename_from_url (url_str : String) (extension : String) : Except String String :=
  match urlparse url_str with
  | .error e => .error e
  | .ok parsed =>
    let sanitized := sanitize_filename_component (String.mk (derive_name_base parsed))
    .ok (String.mk (sanitized.data.take 50) ++ extension)

/-! ## `save_markdown_from_url.save_markdown_from_url`

The function's effects are modelled explicitly:
* `regex_compiled` — whether the module-level `MARKDOWN_CHUNK_REGEX`
  (imported from `extract_markdown_from_html`) compiled, i.e. is not `None`;
* `fetch` — the `requests.get` call: given the download URL it yields the
  decoded body or one of the failure kinds the code catches;
* `save_ok` — whether the final `save_chunks_to_path` write succeeds
  (the optional raw-HTML side-save only warns and never changes the result).

The model returns the function's boolean result together with the list of
URLs passed to `requests.get`, so "no network request is attempted" is the
statement that this list is empty.
-/

/-- Constant `DEEPWIKI_BASE_URL`. -/
def DEEPWIKI_BASE_URL : String := "https://deepwiki.com/"

/-- Constant `GITHUB_BASE_URL`. -/
def GITHUB_BASE_URL : String := "https://github.com/"

/-- `target_url.split('?', 1)[0].split('#', 1)[0]` — the URL with query
string and fragment removed, used only for the prefix check. -/
def stripQueryFragment (s : String) : String :=
  String.mk ((s.data.takeWhile (fun c => !(c = '?'))).takeWhile (fun c => !(c = '#')))

/-- Python `str.startswith`. -/
def startswith (s pre : String) : Bool := pre.data.isPrefixOf s.data

/-- Outcome of the modelled `requests.get`: the failure kinds the code
catches, or a decoded response body. -/
inductive FetchOutcome where
  | timeout
  | httpError
  | requestError
  | otherError
  | ok (body : String)

/-- The tail of `save_markdown_from_url` once a download URL is fixed:
fetch it (recording the URL), return `False` on any fetch failure, and
otherwise succeed exactly when the final markdown write does. -/
def fetchAndSave (fetch : String → FetchOutcome) (save_ok : Bool)
    (download_url : String) : Bool × List String :=
  match fetch download_url with
  | .ok _ => (save_ok, [download_url])
  | _ => (false, [download_url])

/-- `save_markdown_from_url.save_markdown_from_url`: the `None`-regex guard,
the prefix check on the query/fragment-stripped URL, the GitHub→DeepWiki
rewrite `DEEPWIKI_BASE_URL + target_url[len(GITHUB_BASE_URL):]`, and the
fetch/save tail.  Returns (result, URLs fetched). -/
def save_markdown_from_url (regex_compiled : Bool) (fetch : String → FetchOutcome)
    (save_ok : Bool) (target_url : String) : Bool × List String :=
  if !regex_compiled then (false, [])
  else
    let url_for_check := stripQueryFragment target_url
    if startswith url_for_check DEEPWIKI_BASE_URL then
      fetchAndSave fetch save_ok target_url
    else if startswith url_for_check GITHUB_BASE_URL then
      fetchAndSave fetch save_ok
        (DEEPWIKI_BASE_URL ++ String.mk (target_url.data.drop GITHUB_BASE_URL.length))
    else (false, [])

/-! ## `chunk_processor.save_chunks_to_dir`

Effects modelled explicitly:
* `filename_deriver` — the injected callable; `Except.error` models the
  callable raising an exception (caught by the per-chunk `except`);
* `writeOk` — whether `open(path, "w")`/`write` succeeds for a given path
  (`false` models an `IOError`, also caught by the per-chunk `except`).

The model returns `all_successful` together with the list of
`(path, content)` pairs successfully written, in order.
-/

/-- One loop iteration of `save_chunks_to_dir` for chunk `i`:
`none` when the iteration's `except` branch runs (deriver raised or the
write failed), `some (path, content)` when the chunk's file is written. -/
def chunkStep (output_dir : String) (filename_deriver : String → Nat → Except String String)
    (file_extension : String) (writeOk : String → Bool)
    (i : Nat) (chunk_content : String) : Option (String × String) :=
  match filename_deriver chunk_content i with
  | .error _ => none
  | .ok derived =>
    let base_filename := if derived = "" then "chapter_" ++ toString (i + 1) else derived
    let actual_extension :=
      if startswith file_extension "." then file_extension else "." ++ file_extension
    let output_file_path := output_dir ++ "/" ++ (base_filename ++ actual_extension)
    if writeOk output_file_path then some (output_file_path, chunk_content) else none

/-- The `for i, chunk_content in enumerate(chunks)` loop, starting at
index `i`: threads `all_successful` and accumulates written files. -/
def saveChunksLoop (output_dir : String)
    (filename_deriver : String → Nat → Except String String)
    (file_extension : String) (writeOk : String → Bool) :
    Nat → List String → Bool × List (String × String)
  | _, [] => (true, [])
  | i, c :: rest =>
    let r := saveChunksLoop output_dir filename_deriver file_extension writeOk (i + 1) rest
    match chunkStep output_dir filename_deriver file_extension writeOk i c with
    | some f => (r.1, f :: r.2)
    | none => (false, r.2)

/-- `chunk_processor.save_chunks_to_dir`: empty chunk list returns `True`
immediately; otherwise run the loop from index 0. -/
def save_chunks_to_dir (chunks : List String) (output_dir : String)
    (filename_deriver : String → Nat → Except String String)
    (file_extension : String) (writeOk : String → Bool) :
    Bool × List (String × String) :=
  if chunks.isEmpty then (true, [])
  else saveChunksLoop output_dir filename_deriver file_extension writeOk 0 chunks

/-! ## Helper lemmas -/

/-- `(n + i, l[i])` occurs in `l.enumFrom n`. -/
lemma mem_enumFrom_self {α : Type} : ∀ (l : List α) (n i : Nat) (h : i < l.length),
    (n + i, l.get ⟨i, h⟩) ∈ l.enumFrom n := by
  intro l
  induction l with
  | nil => intro n i h; exact absurd h (by simp)
  | cons c rest ih =>
    intro n i h
    cases i with
    | zero => simp [List.enumFrom_cons]
    | succ j =>
      have hj : j < rest.length := Nat.lt_of_succ_lt_succ h
      have := ih (n + 1) j hj
      simp only [List.enumFrom_cons, List.mem_cons]
      right
      have harith : n + (j + 1) = (n + 1) + j := by omega
      simpa [harith] using this

/-- Every member of `l.enumFrom n` is `(n + j, l[j])` for some `j`. -/
lemma eq_of_mem_enumFrom {α : Type} : ∀ (l : List α) (n : Nat) (p : Nat × α),
    p ∈ l.enumFrom n → ∃ (j : Nat) (hj : j < l.length), p = (n + j, l.get ⟨j, hj⟩) := by
  intro l
  induction l with
  | nil => intro n p hp; exact absurd hp (by simp)
  | cons c rest ih =>
    intro n p hp
    simp only [List.enumFrom_cons, List.mem_cons] at hp
    rcases hp with hp | hp
    · exact ⟨0, by simp, by simpa using hp⟩
    · obtain ⟨j, hj, hpj⟩ := ih (n + 1) p hp
      exact ⟨j + 1, Nat.succ_lt_succ hj, by simpa [Nat.add_assoc, Nat.add_comm 1 j] using hpj⟩

/-- Entries on which `f` is `none` can be filtered out before a `filterMap`. -/
lemma filterMap_congr_filter {α β : Type} (f : α → Option β) (q : α → Bool) :
    ∀ (l : List α), (∀ x ∈ l, q x = false → f x = none) →
      l.filterMap f = (l.filter q).filterMap f := by
  intro l
  induction l with
  | nil => intro _; rfl
  | cons x rest ih =>
    intro hl
    have hrest := fun y hy => hl y (List.mem_cons_of_mem x hy)
    cases hq : q x with
    | true => simp [List.filter_cons, hq, List.filterMap_cons, ih hrest]
    | false =>
      simp [List.filter_cons, hq, List.filterMap_cons, hl x (List.mem_cons_self x rest) hq,
        ih hrest]

/-- The chunk loop computes, for each indexed chunk, whether its `chunkStep`
succeeded (conjoined into `all_successful`) and the files it wrote. -/
lemma saveChunksLoop_eq (output_dir : String)
    (filename_deriver : String → Nat → Except String String)
    (file_extension : String) (writeOk : String → Bool) :
    ∀ (i : Nat) (l : List String),
      saveChunksLoop output_dir filename_deriver file_extension writeOk i l =
        ((l.enumFrom i).all
           (fun p => (chunkStep output_dir filename_deriver file_extension writeOk p.1 p.2).isSome),
         (l.enumFrom i).filterMap
           (fun p => chunkStep output_dir filename_deriver file_extension writeOk p.1 p.2)) := by
  intro i l
  induction l generalizing i with
  | nil => rfl
  | cons c rest ih =>
    cases hstep : chunkStep output_dir filename_deriver file_extension writeOk i c with
    | some f =>
      simp [saveChunksLoop, ih (i + 1), hstep, List.enumFrom_cons, List.all_cons,
        List.filterMap_cons]
    | none =>
      simp [saveChunksLoop, ih (i + 1), hstep, List.enumFrom_cons, List.all_cons,
        List.filterMap_cons]

/-- `save_chunks_to_dir` equals the per-chunk characterization: the boolean
is the conjunction of all per-chunk successes, and the written files are
exactly the successful `chunkStep`s, in order. -/
lemma save_chunks_to_dir_eq (chunks : List String) (output_dir : String)
    (filename_deriver : String → Nat → Except String String)
    (file_extension : String) (writeOk : String → Bool) :
    save_chunks_to_dir chunks output_dir filename_deriver file_extension writeOk =
      (chunks.enum.all
         (fun p => (chunkStep output_dir filename_deriver file_extension writeOk p.1 p.2).isSome),
       chunks.enum.filterMap
         (fun p => chunkStep output_dir filename_deriver file_extension writeOk p.1 p.2)) := by
  cases chunks with
  | nil => rfl
  | cons c rest =>
    simp only [save_chunks_to_dir, List.isEmpty_cons, List.enum]
    exact saveChunksLoop_eq output_dir filename_deriver file_extension writeOk 0 (c :: rest)

/-- Both branches of the fetch record exactly the one URL handed to
`requests.get`. -/
lemma fetchAndSave_snd (fetch : String → FetchOutcome) (save_ok : Bool) (d : String) :
    (fetchAndSave fetch save_ok d).2 = [d] := by
  cases h : fetch d <;> simp [fetchAndSave, h]

/-- A `String` with non-empty character data is not the empty string. -/
lemma mk_ne_empty {l : List Char} (h : l ≠ []) : String.mk l ≠ "" := by
  intro he
  exact h (congrArg String.data he)

/-- The sanitizer never returns an empty character list. -/
lemma sanitize_data_ne_nil (s : String) : (sanitize_filename_component s).data ≠ [] := by
  simp only [sanitize_filename_component]
  split
  · decide
  · split
    · decide
    · rename_i hcond
      intro hnil
      exact hcond (Or.inl hnil)

/-- Taking the first 50 characters of a non-empty list is non-empty. -/
lemma take50_ne_nil {l : List Char} (h : l ≠ []) : l.take 50 ≠ [] := by
  cases l with
  | nil => exact absurd rfl h
  | cons c t => simp

/-! ## Sanitizer invariant lemmas -/

/-- Every character emitted by the run-replacement is in the safe class. -/
lemma replaceUnsafeRuns_safe : ∀ (b : Bool) (l : List Char),
    ∀ c ∈ replaceUnsafeRuns b l, isSafeFilenameChar c = true := by
  intro b l
  induction l generalizing b with
  | nil => intro c hc; exact absurd hc (by simp [replaceUnsafeRuns])
  | cons x rest ih =>
    intro c hc
    simp only [replaceUnsafeRuns] at hc
    by_cases hx : isSafeFilenameChar x
    · rw [if_pos hx] at hc
      rcases List.mem_cons.mp hc with rfl | hc
      · exact hx
      · exact ih false c hc
    · rw [if_neg hx] at hc
      cases b with
      | true => exact ih true c (by simpa using hc)
      | false =>
        rcases List.mem_cons.mp (by simpa using hc) with rfl | hc'
        · decide
        · exact ih true c hc'

/-- Stripping keeps only characters of the original list. -/
lemma stripDotUnderscore_subset {l : List Char} {c : Char}
    (h : c ∈ stripDotUnderscore l) : c ∈ l := by
  unfold stripDotUnderscore at h
  rw [List.mem_reverse] at h
  have h1 := (List.dropWhile_suffix isDotOrUnderscore).sublist.subset h
  rw [List.mem_reverse] at h1
  exact (List.dropWhile_suffix isDotOrUnderscore).sublist.subset h1

/-- Underscore collapsing emits only original characters and underscores. -/
lemma collapseUnderscores_mem : ∀ (b : Bool) (l : List Char),
    ∀ c ∈ collapseUnderscores b l, c ∈ l ∨ c = '_' := by
  intro b l
  induction l generalizing b with
  | nil => intro c hc; exact absurd hc (by simp [collapseUnderscores])
  | cons x rest ih =>
    intro c hc
    simp only [collapseUnderscores] at hc
    by_cases hx : x = '_'
    · rw [if_pos hx] at hc
      cases b with
      | true =>
        rcases ih true c (by simpa using hc) with hm | he
        · exact Or.inl (List.mem_cons_of_mem x hm)
        · exact Or.inr he
      | false =>
        rcases List.mem_cons.mp (by simpa using hc) with rfl | hc'
        · exact Or.inr rfl
        · rcases ih true c hc' with hm | he
          · exact Or.inl (List.mem_cons_of_mem x hm)
          · exact Or.inr he
    · rw [if_neg hx] at hc
      rcases List.mem_cons.mp hc with rfl | hc'
      · exact Or.inl (List.mem_cons_self _ _)
      · rcases ih false c hc' with hm | he
        · exact Or.inl (List.mem_cons_of_mem x hm)
        · exact Or.inr he

/-- The head surviving a `dropWhile` falsifies the predicate. -/
lemma head?_dropWhile_false (p : Char → Bool) : ∀ (l : List Char) {c : Char},
    (l.dropWhile p).head? = some c → p c = false := by
  intro l
  induction l with
  | nil => intro c hc; simp [List.dropWhile] at hc
  | cons x rest ih =>
    intro c hc
    rw [List.dropWhile_cons] at hc
    by_cases hx : p x
    · rw [if_pos hx] at hc
      exact ih hc
    · rw [if_neg hx] at hc
      have : x = c := by simpa using hc
      subst this
      exact Bool.not_eq_true (p x) ▸ (by simpa using hx)

/-- The first character of a stripped list is not `'.'`/`'_'`. -/
lemma stripDotUnderscore_head {l : List Char} {c : Char}
    (h : (stripDotUnderscore l).head? = some c) : isDotOrUnderscore c = false := by
  unfold stripDotUnderscore at h
  rw [List.head?_reverse] at h
  obtain ⟨u, hu⟩ := List.dropWhile_suffix (l := (l.dropWhile isDotOrUnderscore).reverse)
    isDotOrUnderscore
  have hlast : ((l.dropWhile isDotOrUnderscore).reverse).getLast? = some c := by
    rw [← hu, List.getLast?_append, h]
    rfl
  rw [List.getLast?_reverse] at hlast
  exact head?_dropWhile_false isDotOrUnderscore l hlast

/-- The last character of a stripped list is not `'.'`/`'_'`. -/
lemma stripDotUnderscore_getLast {l : List Char} {c : Char}
    (h : (stripDotUnderscore l).getLast? = some c) : isDotOrUnderscore c = false := by
  unfold stripDotUnderscore at h
  rw [List.getLast?_reverse] at h
  exact head?_dropWhile_false isDotOrUnderscore _ h

/-- `getLast?` is unchanged by consing onto a list that has a last element. -/
lemma getLast?_cons_of_some {α : Type} {x c : α} {M : List α}
    (h : M.getLast? = some c) : (x :: M).getLast? = some c := by
  cases M with
  | nil => simp at h
  | cons y t => simpa using h

/-- Collapsing underscores preserves a non-underscore last element. -/
lemma collapseUnderscores_getLast : ∀ (b : Bool) (l : List Char) {c : Char},
    l.getLast? = some c → c ≠ '_' →
    (collapseUnderscores b l).getLast? = some c := by
  intro b l
  induction l generalizing b with
  | nil => intro c h _; simp at h
  | cons x rest ih =>
    intro c hlast hne
    cases rest with
    | nil =>
      have hx : x = c := by simpa using hlast
      subst hx
      simp only [collapseUnderscores]
      rw [if_neg (by simpa using hne)]
      rfl
    | cons y rest' =>
      have hlast' : (y :: rest').getLast? = some c := by simpa using hlast
      simp only [collapseUnderscores]
      by_cases hx : x = '_'
      · rw [if_pos hx]
        cases b with
        | true => exact ih true hlast' hne
        | false => exact getLast?_cons_of_some (ih true hlast' hne)
      · rw [if_neg hx]
        exact getLast?_cons_of_some (ih false hlast' hne)

/-- Every character of the full sanitizer pipeline is in the safe class. -/
lemma pipeline_all_safe (l : List Char) :
    ∀ c ∈ collapseUnderscores false (stripDotUnderscore (replaceUnsafeRuns false l)),
      isSafeFilenameChar c = true := by
  intro c hc
  rcases collapseUnderscores_mem false _ c hc with hm | he
  · exact replaceUnsafeRuns_safe false l c (stripDotUnderscore_subset hm)
  · subst he; decide

/-- The first character of the full sanitizer pipeline is not `'.'`/`'_'`. -/
lemma pipeline_head (l : List Char) {c : Char}
    (h : (collapseUnderscores false (stripDotUnderscore (replaceUnsafeRuns false l))).head?
      = some c) : isDotOrUnderscore c = false := by
  cases hs : stripDotUnderscore (replaceUnsafeRuns false l) with
  | nil => rw [hs] at h; simp [collapseUnderscores] at h
  | cons x rest =>
    have hx : isDotOrUnderscore x = false := stripDotUnderscore_head (by rw [hs]; rfl)
    have hxu : ¬ x = '_' := by
      intro he; subst he; simp [isDotOrUnderscore] at hx
    rw [hs] at h
    simp only [collapseUnderscores] at h
    rw [if_neg hxu] at h
    have : x = c := by simpa using h
    subst this
    exact hx

/-- The last character of the full sanitizer pipeline is not `'.'`/`'_'`. -/
lemma pipeline_getLast (l : List Char) {c : Char}
    (h : (collapseUnderscores false (stripDotUnderscore (replaceUnsafeRuns false l))).getLast?
      = some c) : isDotOrUnderscore c = false := by
  cases hgl : (stripDotUnderscore (replaceUnsafeRuns false l)).getLast? with
  | none =>
    rw [List.getLast?_eq_none_iff.mp hgl] at h
    simp [collapseUnderscores] at h
  | some d =>
    have hd : isDotOrUnderscore d = false := stripDotUnderscore_getLast hgl
    have hdu : d ≠ '_' := by
      intro he; subst he; simp [isDotOrUnderscore] at hd
    have := collapseUnderscores_getLast false _ hgl hdu
    rw [this] at h
    cases h
    exact hd

/-! ## Claim theorems -/

/-- **C1**: for every input URL whose query/fragment-stripped form starts
with `"https://github.com/"`, `save_markdown_from_url` produces the download
URL `"https://deepwiki.com/" ++ rest`, where `rest` is exactly the part of
the original (unstripped) input after the GitHub base — path, query string
and fragment preserved byte-for-byte.  The rewritten URL is the unique URL
handed to the fetch step. -/
theorem c1_github_url_transformed (fetch : String → FetchOutcome) (save_ok : Bool)
    (target_url : String)
    (h : startswith (stripQueryFragment target_url) GITHUB_BASE_URL = true) :
    target_url = GITHUB_BASE_URL ++ String.mk (target_url.data.drop 19) ∧
    (save_markdown_from_url true fetch save_ok target_url).2 =
      [DEEPWIKI_BASE_URL ++ String.mk (target_url.data.drop 19)] := by
  have hpre : GITHUB_BASE_URL.data <+: (stripQueryFragment target_url).data :=
    List.isPrefixOf_iff_prefix.mp h
  have hstrip : (stripQueryFragment target_url).data <+: target_url.data := by
    have h1 : (target_url.data.takeWhile (fun c => !(c = '?'))).takeWhile (fun c => !(c = '#'))
        <+: target_url.data.takeWhile (fun c => !(c = '?')) := List.takeWhile_prefix _
    have h2 : target_url.data.takeWhile (fun c => !(c = '?')) <+: target_url.data :=
      List.takeWhile_prefix _
    exact h1.trans h2
  have hgu : GITHUB_BASE_URL.data <+: target_url.data := hpre.trans hstrip
  obtain ⟨t, ht⟩ := hgu
  have hdrop : target_url.data.drop 19 = t := by
    rw [← ht]
    exact List.drop_left' (by decide)
  have hdw : startswith (stripQueryFragment target_url) DEEPWIKI_BASE_URL = false := by
    cases hb : startswith (stripQueryFragment target_url) DEEPWIKI_BASE_URL with
    | false => rfl
    | true =>
      have hdwp : DEEPWIKI_BASE_URL.data <+: (stripQueryFragment target_url).data :=
        List.isPrefixOf_iff_prefix.mp hb
      have hgd : GITHUB_BASE_URL.data <+: DEEPWIKI_BASE_URL.data :=
        List.prefix_of_prefix_length_le hpre hdwp (by decide)
      have hgdb := List.isPrefixOf_iff_prefix.mpr hgd
      exact absurd hgdb (by decide)
  have hlen : GITHUB_BASE_URL.length = 19 := rfl
  constructor
  · apply String.ext
    show target_url.data = GITHUB_BASE_URL.data ++ (target_url.data.drop 19)
    rw [hdrop]
    exact ht.symm
  · simp only [save_markdown_from_url, Bool.not_true, if_neg, hdw, h, hlen,
      Bool.false_eq_true, if_false, if_true]
    exact fetchAndSave_snd fetch save_ok _

/-- **C1 witness**: `"https://github.com/Org/Repo"` is fetched as
`"https://deepwiki.com/Org/Repo"`. -/
theorem c1_witness :
    (save_markdown_from_url true (fun _ => FetchOutcome.ok "") true
        "https://github.com/Org/Repo").2 = ["https://deepwiki.com/Org/Repo"] := by
  have h := c1_github_url_transformed (fun _ => FetchOutcome.ok "") true
    "https://github.com/Org/Repo" (by decide)
  rw [h.2]
  decide

/-- **C2**: a URL that (after stripping query string and fragment for the
check) starts with neither base prefix makes `save_markdown_from_url`
return `False` with no URL ever handed to the fetch step. -/
theorem c2_invalid_url_rejected (fetch : String → FetchOutcome) (save_ok : Bool)
    (target_url : String)
    (h1 : startswith (stripQueryFragment target_url) DEEPWIKI_BASE_URL = false)
    (h2 : startswith (stripQueryFragment target_url) GITHUB_BASE_URL = false) :
    save_markdown_from_url true fetch save_ok target_url = (false, []) := by
  simp [save_markdown_from_url, h1, h2]

/-- **C2 witness**: `"http://example.com/x"` is rejected without a fetch. -/
theorem c2_witness :
    save_markdown_from_url true (fun _ => FetchOutcome.ok "") true "http://example.com/x" =
      (false, []) :=
  c2_invalid_url_rejected _ _ _ (by decide) (by decide)

/-- **C3 counterexample**: the claim says
`derive_filename_from_url "https://deepwiki.com/a/b/archive.tar.gz" ".md"`
is `"archive_tar.md"`; it is not — `'.'` belongs to the sanitizer's safe
character class, so the stem's dot survives. -/
theorem c3_counterexample :
    derive_filename_from_url "https://deepwiki.com/a/b/archive.tar.gz" ".md" ≠
      Except.ok "archive_tar.md" := by
  decide

/-- **C3 amended**: the sanitizer keeps `'.'` (it is in `[a-zA-Z0-9._-]`),
so the stem `"archive.tar"` passes through unchanged and the result is
`"archive.tar.md"`. -/
theorem c3_amended :
    derive_filename_from_url "https://deepwiki.com/a/b/archive.tar.gz" ".md" =
      Except.ok "archive.tar.md" := by
  decide

/-- **C4 counterexample**: the claim says a requested extension without a
leading `'.'` is normalized to start with one; it is not — with URL
`"https://deepwiki.com/a/b"` and extension `"md"` the output is `"bmd"`,
which does not end in `".md"`. -/
theorem c4_counterexample :
    derive_filename_from_url "https://deepwiki.com/a/b" "md" = Except.ok "bmd" ∧
      (".md".data.isSuffixOf "bmd".data) = false := by
  decide

/-- **C4 amended**: `derive_filename_from_url` performs no normalization of
the extension: on every URL the function actually returns from (URL parsing
succeeds; the netloc is bracket-free ASCII, so none of CPython's netloc
validations can raise), the requested extension string is appended verbatim
to a non-empty, ≤50-character sanitized base that does not depend on the
extension (the leading-dot normalization exists only in
`save_chunks_to_dir`'s per-chunk extension handling). -/
theorem c4_amended_extension_verbatim (url e₁ e₂ : String) (parsed : UrlParseResult)
    (h : urlparse url = Except.ok parsed)
    (_hnet : parsed.netloc.all isPlainAsciiNetlocChar = true) :
    ∃ base : String, base ≠ "" ∧ base.length ≤ 50 ∧
      derive_filename_from_url url e₁ = Except.ok (base ++ e₁) ∧
      derive_filename_from_url url e₂ = Except.ok (base ++ e₂) := by
  refine ⟨String.mk ((sanitize_filename_component (String.mk (derive_name_base parsed))).data.take 50),
    mk_ne_empty (take50_ne_nil (sanitize_data_ne_nil _)), ?_, ?_, ?_⟩
  · show ((sanitize_filename_component (String.mk (derive_name_base parsed))).data.take 50).length
      ≤ 50
    simp [List.length_take]
  · simp only [derive_filename_from_url, h]
  · simp only [derive_filename_from_url, h]

/-- **C4 amended witness**: at `"https://deepwiki.com/a/b"` the extensions
`".md"` and `"md"` are both appended verbatim to the same base. -/
theorem c4_witness :
    ∃ base : String, base ≠ "" ∧ base.length ≤ 50 ∧
      derive_filename_from_url "https://deepwiki.com/a/b" ".md" = Except.ok (base ++ ".md") ∧
      derive_filename_from_url "https://deepwiki.com/a/b" "md" = Except.ok (base ++ "md") :=
  c4_amended_extension_verbatim "https://deepwiki.com/a/b" ".md" "md"
    { scheme := "https".data, netloc := "deepwiki.com".data, path := "/a/b".data,
      params := [], query := [], fragment := [] } (by decide) (by decide)

/-- **C5**: `sanitize_filename_component` (which replaces each maximal run
of characters outside `[a-zA-Z0-9._-]` by one underscore, strips leading and
trailing `'.'`/`'_'`, collapses underscore runs, and falls back to
`"untitled"` for empty input or a result that is empty or all `'.'`/`'_'`)
always returns a non-empty string over the safe character set with no
leading or trailing `'.'` or `'_'`.  The concrete equations exhibit the
run-replacement, stripping, collapsing, and each `"untitled"` fallback. -/
theorem c5_sanitize_invariants :
    (∀ name : String,
      sanitize_filename_component name ≠ "" ∧
      (sanitize_filename_component name).data.all isSafeFilenameChar = true ∧
      ((sanitize_filename_component name).data.head?.all
        (fun c => !isDotOrUnderscore c)) = true ∧
      ((sanitize_filename_component name).data.getLast?.all
        (fun c => !isDotOrUnderscore c)) = true) ∧
    sanitize_filename_component "" = "untitled" ∧
    sanitize_filename_component "..._" = "untitled" ∧
    sanitize_filename_component "???" = "untitled" ∧
    sanitize_filename_component "a!?b--c" = "a_b--c" ∧
    sanitize_filename_component "_a__b_" = "a_b" := by
  refine ⟨?_, by decide, by decide, by decide, by decide, by decide⟩
  intro name
  by_cases hne : name = ""
  · subst hne
    exact ⟨by decide, by decide, by decide, by decide⟩
  · simp only [sanitize_filename_component, if_neg hne]
    by_cases hc :
        (collapseUnderscores false (stripDotUnderscore (replaceUnsafeRuns false name.data))) = []
        ∨ (collapseUnderscores false
            (stripDotUnderscore (replaceUnsafeRuns false name.data))).all isDotOrUnderscore
    · rw [if_pos hc]
      exact ⟨by decide, by decide, by decide, by decide⟩
    · rw [if_neg hc]
      push_neg at hc
      refine ⟨mk_ne_empty hc.1, ?_, ?_, ?_⟩
      · exact List.all_eq_true.mpr (pipeline_all_safe name.data)
      · cases hh : (collapseUnderscores false
            (stripDotUnderscore (replaceUnsafeRuns false name.data))).head? with
        | none => simp [Option.all, hh]
        | some c => simp [Option.all, hh, pipeline_head name.data hh]
      · cases hh : (collapseUnderscores false
            (stripDotUnderscore (replaceUnsafeRuns false name.data))).getLast? with
        | none => simp [Option.all, hh]
        | some c => simp [Option.all, hh, pipeline_getLast name.data hh]

/-- **C6 counterexample**: the claim says `derive_filename_from_url` is
total over every input URL string, including strings with no alphanumeric
characters; it is not — on `"//["` the unguarded `urlparse` call raises
`ValueError("Invalid IPv6 URL")` (unbalanced bracket in the netloc), so no
string is returned at all. -/
theorem c6_counterexample :
    derive_filename_from_url "//[" ".md" = Except.error "Invalid IPv6 URL" := by
  decide

/-- **C6 amended**: on every URL from which `derive_filename_from_url`
actually returns (URL parsing succeeds; the netloc is bracket-free ASCII,
so none of CPython's netloc validations can raise), the function is
deterministic and returns a non-empty string of the form
`base ++ extension` with `base` non-empty and at most 50 characters. -/
theorem c6_derive_total_on_success (url ext : String) (parsed : UrlParseResult)
    (h : urlparse url = Except.ok parsed)
    (_hnet : parsed.netloc.all isPlainAsciiNetlocChar = true) :
    derive_filename_from_url url ext ≠ Except.ok "" ∧
    (∃ base : String, derive_filename_from_url url ext = Except.ok (base ++ ext) ∧
      base ≠ "" ∧ base.length ≤ 50) ∧
    derive_filename_from_url url ext = derive_filename_from_url url ext := by
  have hbase_ne :
      ((sanitize_filename_component (String.mk (derive_name_base parsed))).data.take 50) ≠ [] :=
    take50_ne_nil (sanitize_data_ne_nil _)
  refine ⟨?_,
    ⟨String.mk ((sanitize_filename_component (String.mk (derive_name_base parsed))).data.take 50),
      ?_, mk_ne_empty hbase_ne, ?_⟩, rfl⟩
  · intro he
    simp only [derive_filename_from_url, h, Except.ok.injEq] at he
    have hd := congrArg String.data he
    simp only [String.data_append] at hd
    exact hbase_ne (List.append_eq_nil.mp hd).1
  · simp only [derive_filename_from_url, h]
  · show ((sanitize_filename_component (String.mk (derive_name_base parsed))).data.take 50).length
      ≤ 50
    simp [List.length_take]

/-- **C6 amended witness**: at `"https://deepwiki.com/x/y"` with extension
`".md"` the function returns a non-empty `base ++ ".md"` with a short
base. -/
theorem c6_witness :
    derive_filename_from_url "https://deepwiki.com/x/y" ".md" ≠ Except.ok "" ∧
    (∃ base : String, derive_filename_from_url "https://deepwiki.com/x/y" ".md" =
        Except.ok (base ++ ".md") ∧ base ≠ "" ∧ base.length ≤ 50) ∧
    derive_filename_from_url "https://deepwiki.com/x/y" ".md" =
      derive_filename_from_url "https://deepwiki.com/x/y" ".md" :=
  c6_derive_total_on_success "https://deepwiki.com/x/y" ".md"
    { scheme := "https".data, netloc := "deepwiki.com".data, path := "/x/y".data,
      params := [], query := [], fragment := [] } (by decide) (by decide)

/-- **C7**: per-chunk failures in `save_chunks_to_dir` do not abort the
remaining chunks — the result is the conjunction of all per-chunk successes
together with the files of exactly the successful chunks; the empty list
succeeds; and in the concrete 3-chunk scenario where writing chunk 1 fails,
the result is `false` while chunks 0 and 2 are written with their
contents. -/
theorem c7_split_mode_failure_isolation :
    (∀ (output_dir : String) (filename_deriver : String → Nat → Except String String)
        (file_extension : String) (writeOk : String → Bool) (chunks : List String),
      save_chunks_to_dir chunks output_dir filename_deriver file_extension writeOk =
        (chunks.enum.all
           (fun p => (chunkStep output_dir filename_deriver file_extension writeOk p.1 p.2).isSome),
         chunks.enum.filterMap
           (fun p => chunkStep output_dir filename_deriver file_extension writeOk p.1 p.2))) ∧
    (∀ (output_dir : String) (filename_deriver : String → Nat → Except String String)
        (file_extension : String) (writeOk : String → Bool),
      save_chunks_to_dir [] output_dir filename_deriver file_extension writeOk = (true, [])) ∧
    save_chunks_to_dir ["A", "B", "C"] "out" (fun _ i => Except.ok ("n" ++ toString i)) ".md"
        (fun p => !(p = "out/n1.md")) =
      (false, [("out/n0.md", "A"), ("out/n2.md", "C")]) := by
  refine ⟨?_, ?_, ?_⟩
  · intro output_dir filename_deriver file_extension writeOk chunks
    exact save_chunks_to_dir_eq chunks output_dir filename_deriver file_extension writeOk
  · intro _ _ _ _
    rfl
  · decide

/-- **C8**: when the extraction pattern did not compile
(`MARKDOWN_CHUNK_REGEX is None`), `save_markdown_from_url` returns `False`
for every input before any URL handling and with no fetch attempted. -/
theorem c8_regex_none_fatal (fetch : String → FetchOutcome) (save_ok : Bool)
    (target_url : String) :
    save_markdown_from_url false fetch save_ok target_url = (false, []) := rfl

/-- **C9**: when the injected deriver returns the empty string for the chunk
at 0-based index `i`, the chunk's file is written under the fallback base
name `"chapter_" ++ (i+1)` (1-based), before the extension is appended. -/
theorem c9_chapter_fallback (output_dir : String)
    (filename_deriver : String → Nat → Except String String)
    (file_extension : String) (writeOk : String → Bool)
    (chunks : List String) (i : Nat) (h : i < chunks.length)
    (hderiver : filename_deriver (chunks.get ⟨i, h⟩) i = Except.ok "")
    (hwrite : writeOk (output_dir ++ "/" ++ ("chapter_" ++ toString (i + 1) ++
        (if startswith file_extension "." then file_extension
         else "." ++ file_extension))) = true) :
    (output_dir ++ "/" ++ ("chapter_" ++ toString (i + 1) ++
        (if startswith file_extension "." then file_extension
         else "." ++ file_extension)),
      chunks.get ⟨i, h⟩) ∈
      (save_chunks_to_dir chunks output_dir filename_deriver file_extension writeOk).2 := by
  have hderiver' : filename_deriver chunks[i] i = Except.ok "" := by
    simpa using hderiver
  rw [save_chunks_to_dir_eq]
  apply List.mem_filterMap.mpr
  refine ⟨(i, chunks.get ⟨i, h⟩), ?_, ?_⟩
  · simpa [List.enum] using mem_enumFrom_self chunks 0 i h
  · simp [chunkStep, hderiver', hwrite]

/-- **C9 witness**: one chunk, deriver returning `""`, everything writable:
the file `"out/chapter_1.md"` is written with the chunk's content. -/
theorem c9_witness :
    ("out/chapter_1.md", "x") ∈
      (save_chunks_to_dir ["x"] "out" (fun _ _ => Except.ok "") ".md" (fun _ => true)).2 := by
  have h := c9_chapter_fallback "out" (fun _ _ => Except.ok "") ".md" (fun _ => true)
    ["x"] 0 (by decide) rfl rfl
  have e : ("out" ++ "/" ++ ("chapter_" ++ toString (0 + 1) ++
      (if startswith ".md" "." then ".md" else "." ++ ".md"))) = "out/chapter_1.md" := by
    decide
  rw [e] at h
  exact h

/-- **C10**: any exception in one chunk's iteration — here an exception
raised by the injected `filename_deriver` itself — is caught: no file is
written for that chunk, the overall result is `False`, and every other
chunk is processed exactly as it would have been. -/
theorem c10_deriver_exception_isolated (output_dir : String)
    (filename_deriver : String → Nat → Except String String)
    (file_extension : String) (writeOk : String → Bool)
    (chunks : List String) (i : Nat) (err : String) (h : i < chunks.length)
    (hderiver : filename_deriver (chunks.get ⟨i, h⟩) i = Except.error err) :
    (save_chunks_to_dir chunks output_dir filename_deriver file_extension writeOk).1 = false ∧
    (save_chunks_to_dir chunks output_dir filename_deriver file_extension writeOk).2 =
      (chunks.enum.filter (fun p => !(p.1 = i))).filterMap
        (fun p => chunkStep output_dir filename_deriver file_extension writeOk p.1 p.2) := by
  have hderiver' : filename_deriver chunks[i] i = Except.error err := by
    simpa using hderiver
  have hstep : chunkStep output_dir filename_deriver file_extension writeOk i
      chunks[i] = none := by
    simp [chunkStep, hderiver']
  constructor
  · rw [save_chunks_to_dir_eq]
    refine List.all_eq_false.mpr ⟨(i, chunks.get ⟨i, h⟩), ?_, ?_⟩
    · simpa [List.enum] using mem_enumFrom_self chunks 0 i h
    · simp [hstep]
  · rw [save_chunks_to_dir_eq]
    apply filterMap_congr_filter
    intro x hx hqx
    obtain ⟨j, hj, rfl⟩ := eq_of_mem_enumFrom chunks 0 x (by simpa [List.enum] using hx)
    have hji : j = i := by simpa using hqx
    subst hji
    simpa using hstep

/-- **C10 witness**: two chunks, deriver raising on index 0: overall result
is `false`, yet chunk 1's file is still written. -/
theorem c10_witness :
    (save_chunks_to_dir ["a", "b"] "out"
        (fun _ i => if i = 0 then Except.error "boom" else Except.ok "n") ".md"
        (fun _ => true)).1 = false ∧
    (save_chunks_to_dir ["a", "b"] "out"
        (fun _ i => if i = 0 then Except.error "boom" else Except.ok "n") ".md"
        (fun _ => true)).2 =
      ((["a", "b"] : List String).enum.filter (fun p => !(p.1 = 0))).filterMap
        (fun p => chunkStep "out" (fun _ i => if i = 0 then Except.error "boom" else Except.ok "n")
          ".md" (fun _ => true) p.1 p.2) :=
  c10_deriver_exception_isolated "out"
    (fun _ i => if i = 0 then Except.error "boom" else Except.ok "n") ".md"
    (fun _ => true) ["a", "b"] 0 "boom" (by decide) rfl

end DeepwikiExport
